import Mathlib

set_option linter.unusedVariables false

/-!
Verification development for `src/mcplite.js` (class `MCPClient`).

The file shallowly embeds the parts of the client that the verified
properties depend on: the JavaScript value model (JSON plus `undefined`),
the correlation table `this.messageHandlers`, the public operations
`disconnect` / `listTools` / `callTool`, the synchronous prefix of
`sendRequest`, and the inbound dispatch functions `handleIncomingMessage`,
`handleNotification` and `handleServerRequest`.  Asynchronous resolution
(timeout expiry, failure of the outbound HTTP send) is modelled as an
explicit event step relation on the client state.
-/

/-- JavaScript runtime values as produced by `JSON.parse` and by the object
literals appearing in `mcplite.js`.  `undefined` is JavaScript `undefined`, the
result of reading an absent property; it never comes out of `JSON.parse` but
does occur as a constructed property value. -/
inductive JsVal where
  | undefined
  | null
  | bool (b : Bool)
  | num (n : Int)
  | str (s : String)
  | arr (elems : List JsVal)
  | obj (fields : List (String × JsVal))

/-- JavaScript property read `v.k`.  Reading a property of `null` or
`undefined` throws a `TypeError`, modelled as `Except.error ()`.  Reading an
absent property of an object, or any of the property names used by
`mcplite.js` on a primitive or an array, yields `undefined`.  For duplicate
keys the last binding wins, as in JavaScript. -/
def getField : JsVal → String → Except Unit JsVal
  | .undefined, _ => .error ()
  | .null, _ => .error ()
  | .obj fs, k =>
      .ok (match fs.reverse.find? (fun f => f.1 == k) with
            | some f => f.2
            | none => .undefined)
  | _, _ => .ok .undefined

/-- Total property read, used where the receiver is already known not to be
`null` or `undefined` (so the `TypeError` branch of `getField` is
unreachable; on `null`/`undefined` this returns `undefined`). -/
def getF (v : JsVal) (k : String) : JsVal :=
  match getField v k with
  | .ok w => w
  | .error _ => .undefined

/-- JavaScript truthiness: `undefined`, `null`, `false`, `0` and the empty
string are falsy; every other value (including empty arrays and empty
objects) is truthy. -/
def truthy : JsVal → Bool
  | .undefined => false
  | .null => false
  | .bool b => b
  | .num n => n != 0
  | .str s => s != ""
  | .arr _ => true
  | .obj _ => true

/-- How the promise of a pending `sendRequest` call settles.  The first two
come from the completion callback registered in `this.messageHandlers`
(mcplite.js:164-172): a truthy `error` field rejects with the error's `code`
and `message`, otherwise the promise resolves with the `result` payload.
`timedOut` is the rejection from the timeout timer (mcplite.js:159-162) and
`sendFailed` the rejection from the `sendMessage(...).catch` handler
(mcplite.js:174-178). -/
inductive Resolution where
  | resolvedResult (res : JsVal)
  | rejectedError (code : JsVal) (emsg : JsVal)
  | timedOut
  | sendFailed

/-- Observable effects of a step of the client.  `send m` is a call of
`this.sendMessage(m)` (the outbound HTTP POST); `emitEv e d` is a call of
`this.emit(e, d)` (surfacing event `e` with payload `d` to the application,
`d = undefined` when `emit` is called without a payload); `settle cb r` is the
settlement of the pending request whose completion callback has identity
`cb`.  `console.log`/`console.warn` calls are not observable effects. -/
inductive Out where
  | send (msg : JsVal)
  | emitEv (event : String) (data : JsVal)
  | settle (cb : Nat) (r : Resolution)

/-- The fields of `MCPClient` (mcplite.js:1-17) that the verified properties
depend on.  `handlers` is `this.messageHandlers`: an insertion-ordered map
from request id to the identity of the completion callback registered for it
by `sendRequest`.  Entries are created only by `sendRequest` (mcplite.js:164),
so every key is the numeric id it allocated from the monotonic counter; we
use that id itself as the callback identity, since ids are never reused.
`eventSource` records whether `this.eventSource` is non-null. -/
structure Client where
  serverUrl : String
  eventSource : Bool
  nextRequestId : Nat
  connected : Bool
  handlers : List (Int × Nat)
deriving Repr, DecidableEq

/-- `new MCPClient(serverUrl)` (mcplite.js:2-17). -/
def mkClient (serverUrl : String) : Client :=
  { serverUrl := serverUrl, eventSource := false, nextRequestId := 1,
    connected := false, handlers := [] }

/-- `this.messageHandlers.get(message.id)` (mcplite.js:228).  A JavaScript
`Map` compares keys with SameValueZero, and every key in this table is a
number (they are created only by `sendRequest`), so a lookup with a
non-number id finds nothing. -/
def lookupHandler (handlers : List (Int × Nat)) : JsVal → Option (Int × Nat)
  | .num n => handlers.find? (fun e => e.1 == n)
  | _ => none

/-- Removal of the entry for numeric key `n` (a JavaScript `Map` holds at
most one entry per key; on an association list this is removal of the first
matching entry). -/
def eraseNum : List (Int × Nat) → Int → List (Int × Nat)
  | [], _ => []
  | e :: es, n => if e.1 == n then es else e :: eraseNum es n

/-- `this.messageHandlers.delete(message.id)` (mcplite.js:232): a no-op
unless the id is a number, since all keys are numbers. -/
def eraseKey (handlers : List (Int × Nat)) : JsVal → List (Int × Nat)
  | .num n => eraseNum handlers n
  | _ => handlers

/-- `disconnect()` (mcplite.js:80-88): if the event source is open, close it,
clear the connected flag and emit the `disconnect` event; otherwise do
nothing. -/
def disconnect (cl : Client) : Client × List Out :=
  if cl.eventSource then
    ({ cl with eventSource := false, connected := false }, [.emitEv "disconnect" .undefined])
  else
    (cl, [])

/-- The synchronous prefix of `sendRequest(request)` (mcplite.js:149-180):
allocate the next id from the monotonic counter, build the JSON-RPC envelope
(`request.params || ` empty object), register the completion callback in
`this.messageHandlers` and arm its timeout, then hand the envelope to
`sendMessage`.  The timeout timer is not reified as data: every code path
that removes a table entry also runs `clearTimeout` for its timer (and the
timer callback itself removes the entry), so a timer is armed exactly while
its entry is in the table; timer expiry is the `Ev.timerFire` event below,
enabled only while the entry is present. -/
def sendRequest (cl : Client) (method : String) (params : JsVal) : Client × List Out :=
  let id := cl.nextRequestId
  let req : JsVal := .obj [("jsonrpc", .str "2.0"), ("id", .num id),
    ("method", .str method),
    ("params", if truthy params then params else .obj [])]
  ({ cl with nextRequestId := id + 1, handlers := cl.handlers ++ [((id : Int), id)] },
   [.send req])

/-- The synchronous part of `listTools()` (mcplite.js:112-122): the
not-connected guard and the dispatch of the `tools/list` request
(`request.params` is absent, so `sendRequest` substitutes the empty
object). -/
def listTools (cl : Client) : Client × List Out × Except String Unit :=
  if !cl.connected then
    (cl, [], .error "Not connected to MCP server")
  else
    let r := sendRequest cl "tools/list" .undefined
    (r.1, r.2, .ok ())

/-- The synchronous part of `callTool(name, args, withProgress)`
(mcplite.js:124-147): the not-connected guard, assembly of the params object
(appending `_meta.progressToken` derived from the current wall clock when
`withProgress` is true), and dispatch of the `tools/call` request.  `now` is
the value of `Date.now()` in milliseconds; the token is its decimal string. -/
def callTool (cl : Client) (name : String) (args : JsVal) (withProgress : Bool)
    (now : Nat) : Client × List Out × Except String Unit :=
  if !cl.connected then
    (cl, [], .error "Not connected to MCP server")
  else
    let params : JsVal :=
      if withProgress then
        .obj [("name", .str name), ("arguments", args),
              ("_meta", .obj [("progressToken", .str (toString now))])]
      else
        .obj [("name", .str name), ("arguments", args)]
    let r := sendRequest cl "tools/call" params
    (r.1, r.2, .ok ())

/-- The default value of the `args` parameter of `callTool` (mcplite.js:124):
the empty object. -/
def callToolDefaultArgs : JsVal := .obj []

/-- The default value of the `withProgress` parameter of `callTool`
(mcplite.js:124). -/
def callToolDefaultWithProgress : Bool := true

/-- `callTool(name)` with both optional parameters left at their declared
defaults. -/
def callToolDefaults (cl : Client) (name : String) (now : Nat) :
    Client × List Out × Except String Unit :=
  callTool cl name callToolDefaultArgs callToolDefaultWithProgress now

/-- JavaScript strict equality `v === s` of a value against a string literal,
as used by the `switch` statements of `mcplite.js`: true exactly when `v` is
that string. -/
def strEq (v : JsVal) (s : String) : Bool :=
  match v with
  | .str t => t == s
  | _ => false

/-- `handleNotification(notification)` (mcplite.js:249-286).  The receiver is
known not to be `null`/`undefined` (its `method` property was read
successfully by the caller), so only the reads of properties of
`notification.params` can throw; the returned `Bool` is `false` when such a
read threw a `TypeError` (aborting the dispatch of this message).  Matching
the source, the handler mutates no state; it only emits events. -/
def handleNotification (cl : Client) (m : JsVal) : Client × List Out × Bool :=
  let mth := getF m "method"
  let p := getF m "params"
  if strEq mth "notifications/resources/list_changed" then
    (cl, [.emitEv "resourceListChanged" .undefined], true)
  else if strEq mth "notifications/resources/updated" then
    match getField p "uri" with
    | .error _ => (cl, [], false)
    | .ok _ => (cl, [.emitEv "resourceUpdated" p], true)
  else if strEq mth "notifications/tools/list_changed" then
    (cl, [.emitEv "toolListChanged" .undefined], true)
  else if strEq mth "notifications/prompts/list_changed" then
    (cl, [.emitEv "promptListChanged" .undefined], true)
  else if strEq mth "notifications/progress" then
    match getField p "progress" with
    | .error _ => (cl, [], false)
    | .ok prog =>
      (cl, [.emitEv "progress" (.obj [("token", getF p "progressToken"),
        ("progress", prog), ("total", getF p "total"),
        ("message", getF p "message")])], true)
  else if strEq mth "notifications/message" then
    match getField p "level" with
    | .error _ => (cl, [], false)
    | .ok lvl =>
      (cl, [.emitEv "message" (.obj [("level", lvl), ("data", getF p "data")])], true)
  else
    (cl, [], true)

/-- `handleServerRequest(request)` (mcplite.js:288-323).  `ping` is answered
with an empty success response and surfaces nothing; `sampling/createMessage`
only surfaces an event; `roots/list` surfaces an event and answers with an
empty roots list; anything else is answered with a `-32601` error response.
All replies reuse the request's id. -/
def handleServerRequest (cl : Client) (m : JsVal) : Client × List Out × Bool :=
  let mth := getF m "method"
  if strEq mth "ping" then
    (cl, [.send (.obj [("jsonrpc", .str "2.0"), ("id", getF m "id"),
      ("result", .obj [])])], true)
  else if strEq mth "sampling/createMessage" then
    (cl, [.emitEv "samplingRequest" m], true)
  else if strEq mth "roots/list" then
    (cl, [.emitEv "rootsListRequest" m,
      .send (.obj [("jsonrpc", .str "2.0"), ("id", getF m "id"),
        ("result", .obj [("roots", .arr [])])])], true)
  else
    (cl, [.send (.obj [("jsonrpc", .str "2.0"), ("id", getF m "id"),
      ("error", .obj [("code", .num (-32601)), ("message", .str "Method not found")])])], true)

/-- The non-array part of `handleIncomingMessage(message)` (mcplite.js:221-247):
shape-based classification by truthiness of `method` / `id` / `result` /
`error`, in source order.  Reading `message.method` of `null` throws a
`TypeError` (returned `Bool` is `false`); once that read succeeded the
remaining property reads of `message` cannot throw.  A response whose id has
a registered completion callback invokes the callback (mcplite.js:164-172)
and then deletes the table entry; a response for an unknown id is only
warned about.  A message matching no shape is warned about and discarded. -/
def handleSingle (cl : Client) (m : JsVal) : Client × List Out × Bool :=
  match getField m "method" with
  | .error _ => (cl, [], false)
  | .ok mth =>
    let idv := getF m "id"
    if truthy mth && !truthy idv then
      handleNotification cl m
    else if truthy idv && (truthy (getF m "result") || truthy (getF m "error")) then
      match lookupHandler cl.handlers idv with
      | some e =>
        let res := if truthy (getF m "error") then
            Resolution.rejectedError (getF (getF m "error") "code")
              (getF (getF m "error") "message")
          else
            Resolution.resolvedResult (getF m "result")
        ({ cl with handlers := eraseKey cl.handlers idv }, [.settle e.2 res], true)
      | none => (cl, [], true)
    else if truthy mth && truthy idv then
      handleServerRequest cl m
    else
      (cl, [], true)

mutual

/-- `handleIncomingMessage(message)` (mcplite.js:214-247): an array is a
batch, processed element by element with `forEach`; anything else goes
through the shape-based classification of `handleSingle`.  The `Bool` is
`false` when a `TypeError` was thrown while handling the message; the
exception propagates to the `message`-event listener's `try`/`catch`
(mcplite.js:58-65), so the outputs produced before the throw stand. -/
def handleIncomingMessage (cl : Client) : JsVal → Client × List Out × Bool
  | .arr xs => handleBatch cl xs
  | .undefined => handleSingle cl .undefined
  | .null => handleSingle cl .null
  | .bool b => handleSingle cl (.bool b)
  | .num n => handleSingle cl (.num n)
  | .str s => handleSingle cl (.str s)
  | .obj fs => handleSingle cl (.obj fs)

/-- `message.forEach(msg => this.handleIncomingMessage(msg))`
(mcplite.js:216): elements are processed in array order; a callback that
throws aborts `forEach`, so elements after a throwing one are not
processed. -/
def handleBatch (cl : Client) : List JsVal → Client × List Out × Bool
  | [] => (cl, [], true)
  | x :: xs =>
    let r := handleIncomingMessage cl x
    if r.2.2 then
      let r2 := handleBatch r.1 xs
      (r2.1, r.2.1 ++ r2.2.1, r2.2.2)
    else
      (r.1, r.2.1, false)

end

/-- Asynchronous events that act on the correlation table, besides the
arrival of an inbound message: expiry of a pending request's timeout timer
(mcplite.js:159-162) and failure of the outbound HTTP send of a pending
request (mcplite.js:174-178).  Both are identified by the numeric request id
they were created for. -/
inductive Ev where
  | inbound (m : JsVal)
  | timerFire (id : Int)
  | sendFail (id : Int)

/-- One asynchronous step of the client.  `inbound m` is the `message` event
listener (mcplite.js:58-65) delivering a parsed envelope or batch.
`timerFire id` is the expiry of the timeout armed by `sendRequest` for `id`:
it deletes the table entry and rejects the promise; it is enabled only while
the entry is present, because every path that removes the entry also runs
`clearTimeout` for this timer.  `sendFail id` is the `.catch` of the
outbound send: it runs `clearTimeout`, deletes the entry and rejects the
promise; when the entry is already gone the promise has already settled, so
the late reject is a silent no-op (promises settle at most once). -/
def step (cl : Client) : Ev → Client × List Out
  | .inbound m =>
    let r := handleIncomingMessage cl m
    (r.1, r.2.1)
  | .timerFire id =>
    match cl.handlers.find? (fun e => e.1 == id) with
    | some e => ({ cl with handlers := eraseNum cl.handlers id }, [.settle e.2 .timedOut])
    | none => (cl, [])
  | .sendFail id =>
    match cl.handlers.find? (fun e => e.1 == id) with
    | some e => ({ cl with handlers := eraseNum cl.handlers id }, [.settle e.2 .sendFailed])
    | none => (cl, [])

/-- Run a sequence of asynchronous events, concatenating their outputs. -/
def runEvents (cl : Client) : List Ev → Client × List Out
  | [] => (cl, [])
  | e :: es =>
    let r := step cl e
    let r2 := runEvents r.1 es
    (r2.1, r.2 ++ r2.2)

/-- The number of entries of the correlation table whose completion callback
is `c`. -/
def countCb (handlers : List (Int × Nat)) (c : Nat) : Nat :=
  handlers.countP (fun e => e.2 == c)

/-- The number of settlements of the pending request with callback identity
`c` among the outputs `outs`. -/
def settleCount (outs : List Out) (c : Nat) : Nat :=
  outs.countP (fun o => match o with | .settle cb _ => cb == c | _ => false)

/-! ### Concrete fixtures used by witnesses and counterexamples -/

/-- A connected client right after the handshake. -/
def clConn : Client :=
  { mkClient "http://localhost:8080" with eventSource := true, connected := true }

/-- A connected client with one pending request (id 1) and the counter
advanced past it. -/
def clPend : Client :=
  { clConn with nextRequestId := 2, handlers := [((1 : Int), 1)] }

/-- A connected client with two pending requests (ids 1 and 2). -/
def clPend2 : Client :=
  { clConn with nextRequestId := 3, handlers := [((1 : Int), 1), ((2 : Int), 2)] }

/-- A well-formed success Response for id 1. -/
def respOk : JsVal :=
  .obj [("jsonrpc", .str "2.0"), ("id", .num 1), ("result", .str "ok")]

/-- A well-formed progress notification. -/
def progressNote : JsVal :=
  .obj [("method", .str "notifications/progress"),
    ("params", .obj [("progressToken", .str "tok"), ("progress", .num 1), ("total", .num 2)])]


/-- The JSON-RPC id field of the first outbound message among some outputs
(used to state properties of a single dispatched request). -/
def firstReqId (outs : List Out) : JsVal :=
  match outs with
  | Out.send req :: _ => getF req "id"
  | _ => .undefined

/-- The `_meta.progressToken` carried in the params of the first outbound
message among some outputs. -/
def firstProgressToken (outs : List Out) : JsVal :=
  match outs with
  | Out.send req :: _ => getF (getF (getF req "params") "_meta") "progressToken"
  | _ => .undefined

/-! ### Basic properties of the correlation-table primitives -/

theorem settleCount_nil (c : Nat) : settleCount [] c = 0 := rfl

theorem settleCount_append (o1 o2 : List Out) (c : Nat) :
    settleCount (o1 ++ o2) c = settleCount o1 c + settleCount o2 c := by
  simp [settleCount]

theorem settleCount_settle (cb : Nat) (r : Resolution) (c : Nat) :
    settleCount [Out.settle cb r] c = if cb = c then 1 else 0 := by
  simp [settleCount, List.countP_cons]

theorem eraseNum_sublist (l : List (Int × Nat)) (n : Int) :
    List.Sublist (eraseNum l n) l := by
  induction l with
  | nil => simp [eraseNum]
  | cons e es ih =>
    rw [eraseNum]
    split
    · exact List.sublist_cons_self e es
    · exact List.Sublist.cons₂ e ih

theorem eraseNum_countCb (l : List (Int × Nat)) (n : Int) (e : Int × Nat) (c : Nat)
    (h : l.find? (fun x => x.1 == n) = some e) :
    countCb (eraseNum l n) c + (if e.2 = c then 1 else 0) = countCb l c := by
  induction l with
  | nil => simp at h
  | cons a as ih =>
    by_cases ha : (a.1 == n) = true
    · have hf : List.find? (fun x => x.1 == n) (a :: as) = some a :=
        List.find?_cons_of_pos as ha
      rw [hf] at h
      injection h with h
      subst h
      have he : eraseNum (a :: as) n = as := by simp [eraseNum, ha]
      rw [he]
      simp only [countCb, List.countP_cons, beq_iff_eq]
    · have hf : List.find? (fun x => x.1 == n) (a :: as) = List.find? (fun x => x.1 == n) as :=
        List.find?_cons_of_neg as ha
      rw [hf] at h
      have hih := ih h
      have he : eraseNum (a :: as) n = a :: eraseNum as n := by simp [eraseNum, ha]
      rw [he]
      simp only [countCb, List.countP_cons] at hih ⊢
      omega


/-- A successful correlation lookup forces the looked-up id to be a number
and comes from a `find?` on the table. -/
theorem lookupHandler_some (handlers : List (Int × Nat)) (idv : JsVal) (e : Int × Nat)
    (h : lookupHandler handlers idv = some e) :
    ∃ n, idv = .num n ∧ handlers.find? (fun x => x.1 == n) = some e := by
  unfold lookupHandler at h
  split at h
  · exact ⟨_, rfl, h⟩
  · cases h

/-- `handleNotification` never touches the client state, never settles a
pending request and never sends an outbound message: it only emits events
(or throws on a missing `params`). -/
theorem handleNotification_spec (cl : Client) (m : JsVal) :
    (handleNotification cl m).1 = cl
    ∧ (∀ c, settleCount (handleNotification cl m).2.1 c = 0)
    ∧ (∀ j, Out.send j ∉ (handleNotification cl m).2.1) := by
  refine ⟨?_, fun c => ?_, fun j => ?_⟩ <;>
    (simp only [handleNotification]
     repeat' split
     all_goals simp [settleCount, List.countP_cons])

/-- `handleServerRequest` never touches the client state and never settles a
pending request: it only sends replies and emits events. -/
theorem handleServerRequest_spec (cl : Client) (m : JsVal) :
    (handleServerRequest cl m).1 = cl
    ∧ (∀ c, settleCount (handleServerRequest cl m).2.1 c = 0) := by
  refine ⟨?_, fun c => ?_⟩ <;>
    (simp only [handleServerRequest]
     repeat' split
     all_goals simp [settleCount, List.countP_cons])

/-- Conservation for a single non-batch message: every settlement of a
pending callback coincides with the removal of exactly the table entry
carrying that callback, and the table only shrinks. -/
theorem handleSingle_spec (cl : Client) (m : JsVal) (c : Nat) :
    countCb (handleSingle cl m).1.handlers c + settleCount (handleSingle cl m).2.1 c
      = countCb cl.handlers c
    ∧ List.Sublist (handleSingle cl m).1.handlers cl.handlers := by
  simp only [handleSingle]
  split
  · exact ⟨by simp [settleCount], List.Sublist.refl _⟩
  · split
    · have h := handleNotification_spec cl m
      rw [h.1, h.2.1 c]
      exact ⟨Nat.add_zero _, List.Sublist.refl _⟩
    · split
      · cases hl : lookupHandler cl.handlers (getF m "id") with
        | some e =>
          obtain ⟨n, hn, hfind⟩ := lookupHandler_some _ _ _ hl
          simp only [hl, hn, eraseKey, settleCount_settle]
          exact ⟨eraseNum_countCb _ _ _ _ hfind, eraseNum_sublist _ _⟩
        | none =>
          simp only [hl]
          exact ⟨by simp [settleCount], List.Sublist.refl _⟩
      · split
        · have h := handleServerRequest_spec cl m
          rw [h.1, h.2 c]
          exact ⟨Nat.add_zero _, List.Sublist.refl _⟩
        · exact ⟨by simp [settleCount], List.Sublist.refl _⟩

mutual

/-- Conservation and shrinking for a full (possibly batched) inbound
message: the settlements it emits for a callback exactly account for the
table entries with that callback that it removes. -/
theorem handleIncomingMessage_spec (cl : Client) (m : JsVal) (c : Nat) :
    countCb (handleIncomingMessage cl m).1.handlers c
      + settleCount (handleIncomingMessage cl m).2.1 c = countCb cl.handlers c
    ∧ List.Sublist (handleIncomingMessage cl m).1.handlers cl.handlers := by
  cases m with
  | arr xs => simpa only [handleIncomingMessage] using handleBatch_spec cl xs c
  | undefined => simpa only [handleIncomingMessage] using handleSingle_spec cl .undefined c
  | null => simpa only [handleIncomingMessage] using handleSingle_spec cl .null c
  | bool b => simpa only [handleIncomingMessage] using handleSingle_spec cl (.bool b) c
  | num n => simpa only [handleIncomingMessage] using handleSingle_spec cl (.num n) c
  | str s => simpa only [handleIncomingMessage] using handleSingle_spec cl (.str s) c
  | obj fs => simpa only [handleIncomingMessage] using handleSingle_spec cl (.obj fs) c

/-- Conservation and shrinking for batch processing. -/
theorem handleBatch_spec (cl : Client) (xs : List JsVal) (c : Nat) :
    countCb (handleBatch cl xs).1.handlers c
      + settleCount (handleBatch cl xs).2.1 c = countCb cl.handlers c
    ∧ List.Sublist (handleBatch cl xs).1.handlers cl.handlers := by
  cases xs with
  | nil =>
    simp only [handleBatch]
    exact ⟨by simp [settleCount], List.Sublist.refl _⟩
  | cons x tail =>
    have h1 := handleIncomingMessage_spec cl x c
    have h2 := handleBatch_spec (handleIncomingMessage cl x).1 tail c
    simp only [handleBatch]
    split
    · dsimp only
      constructor
      · rw [settleCount_append]
        omega
      · exact h2.2.trans h1.2
    · exact h1

end

/-- Conservation and shrinking for one asynchronous event. -/
theorem step_spec (cl : Client) (ev : Ev) (c : Nat) :
    countCb (step cl ev).1.handlers c + settleCount (step cl ev).2 c = countCb cl.handlers c
    ∧ List.Sublist (step cl ev).1.handlers cl.handlers := by
  cases ev with
  | inbound m =>
    have h := handleIncomingMessage_spec cl m c
    simpa only [step] using h
  | timerFire i =>
    simp only [step]
    cases hf : cl.handlers.find? (fun e => e.1 == i) with
    | some e =>
      simp only [hf, settleCount_settle]
      exact ⟨eraseNum_countCb _ _ _ _ hf, eraseNum_sublist _ _⟩
    | none =>
      simp only [hf]
      exact ⟨by simp [settleCount], List.Sublist.refl _⟩
  | sendFail i =>
    simp only [step]
    cases hf : cl.handlers.find? (fun e => e.1 == i) with
    | some e =>
      simp only [hf, settleCount_settle]
      exact ⟨eraseNum_countCb _ _ _ _ hf, eraseNum_sublist _ _⟩
    | none =>
      simp only [hf]
      exact ⟨by simp [settleCount], List.Sublist.refl _⟩

/-- Conservation and shrinking over a whole run of asynchronous events:
settlements of `c` exactly account for removed entries carrying `c`. -/
theorem runEvents_spec (cl : Client) (evs : List Ev) (c : Nat) :
    countCb (runEvents cl evs).1.handlers c + settleCount (runEvents cl evs).2 c
      = countCb cl.handlers c
    ∧ List.Sublist (runEvents cl evs).1.handlers cl.handlers := by
  induction evs generalizing cl with
  | nil =>
    simp only [runEvents]
    exact ⟨by simp [settleCount], List.Sublist.refl _⟩
  | cons e es ih =>
    have h1 := step_spec cl e c
    have h2 := ih (step cl e).1
    simp only [runEvents]
    try dsimp only
    constructor
    · rw [settleCount_append]
      omega
    · exact h2.2.trans h1.2

/-- Splitting a run of events at an intermediate point. -/
theorem runEvents_append (cl : Client) (es1 es2 : List Ev) :
    (runEvents cl (es1 ++ es2)).1 = (runEvents (runEvents cl es1).1 es2).1
    ∧ (runEvents cl (es1 ++ es2)).2
      = (runEvents cl es1).2 ++ (runEvents (runEvents cl es1).1 es2).2 := by
  induction es1 generalizing cl with
  | nil => simp [runEvents]
  | cons e es ih =>
    simp only [List.cons_append, runEvents, List.append_eq]
    try dsimp only
    have h := ih (step cl e).1
    rw [h.1, h.2, List.append_assoc]
    exact ⟨rfl, rfl⟩

/-- On a table whose keys are distinct, `find?` at a present key returns
exactly that entry. -/
theorem find?_of_mem_keysNodup (l : List (Int × Nat)) (i : Int) (c : Nat)
    (hnd : (l.map Prod.fst).Nodup) (hm : (i, c) ∈ l) :
    l.find? (fun e => e.1 == i) = some (i, c) := by
  induction l with
  | nil => cases hm
  | cons a as ih =>
    simp only [List.map_cons, List.nodup_cons] at hnd
    rcases List.mem_cons.mp hm with h | h
    · subst h
      exact List.find?_cons_of_pos as (by simp)
    · have hne : ¬((fun e : Int × Nat => e.1 == i) a = true) := by
        simp only [beq_iff_eq]
        intro hh
        apply hnd.1
        rw [hh]
        exact List.mem_map_of_mem Prod.fst h
      rw [List.find?_cons_of_neg as hne]
      exact ih hnd.2 h

theorem countCb_pos_of_mem (l : List (Int × Nat)) (i : Int) (c : Nat)
    (hm : (i, c) ∈ l) : 1 ≤ countCb l c := by
  rw [countCb]
  have h : 0 < List.countP (fun e : Int × Nat => e.2 == c) l :=
    List.countP_pos_iff.mpr ⟨(i, c), hm, beq_self_eq_true c⟩
  omega

theorem countCb_le_one_of_nodup (l : List (Int × Nat)) (c : Nat)
    (h : (l.map Prod.snd).Nodup) : countCb l c ≤ 1 := by
  induction l with
  | nil => simp [countCb]
  | cons a as ih =>
    simp only [List.map_cons, List.nodup_cons] at h
    rw [countCb, List.countP_cons]
    by_cases hc : a.2 = c
    · have h0 : List.countP (fun e : Int × Nat => e.2 == c) as = 0 := by
        rw [List.countP_eq_zero]
        intro e he hbe
        apply h.1
        have hec : e.2 = c := by simpa using hbe
        rw [hc, ← hec]
        exact List.mem_map_of_mem Prod.snd he
      simp [hc, h0]
    · have hih := ih h.2
      rw [countCb] at hih
      simp [hc]
      omega

theorem not_mem_of_countCb_zero (l : List (Int × Nat)) (i : Int) (c : Nat)
    (h : countCb l c = 0) : (i, c) ∉ l := by
  intro hm
  have := countCb_pos_of_mem l i c hm
  omega

theorem exists_cb_of_countCb_pos (l : List (Int × Nat)) (c : Nat)
    (h : 1 ≤ countCb l c) : ∃ e ∈ l, e.2 = c := by
  rw [countCb] at h
  have hh : 0 < List.countP (fun e : Int × Nat => e.2 == c) l := by omega
  obtain ⟨e, he, hbe⟩ := List.countP_pos_iff.mp hh
  exact ⟨e, he, by simpa using hbe⟩

theorem settleCount_pos_of_mem (outs : List Out) (c : Nat) (r : Resolution)
    (h : Out.settle c r ∈ outs) : 1 ≤ settleCount outs c := by
  rw [settleCount]
  have hp : 0 < List.countP
      (fun o => match o with | Out.settle cb _ => cb == c | _ => false) outs :=
    List.countP_pos_iff.mpr ⟨_, h, beq_self_eq_true c⟩
  omega

/-- Arrays carry none of the property names probed by the dispatcher, so a
message with a truthy `method` is not a batch and is dispatched as a single
message. -/
theorem him_eq_single_of_truthy_method (cl : Client) (m : JsVal)
    (hmeth : truthy (getF m "method") = true) :
    handleIncomingMessage cl m = handleSingle cl m := by
  cases m with
  | arr xs => exact absurd hmeth (by simp [getF, getField, truthy])
  | undefined => simp only [handleIncomingMessage]
  | null => simp only [handleIncomingMessage]
  | bool b => simp only [handleIncomingMessage]
  | num n => simp only [handleIncomingMessage]
  | str s => simp only [handleIncomingMessage]
  | obj fs => simp only [handleIncomingMessage]

/-- Likewise for a truthy `id`. -/
theorem him_eq_single_of_truthy_id (cl : Client) (m : JsVal)
    (hid : truthy (getF m "id") = true) :
    handleIncomingMessage cl m = handleSingle cl m := by
  cases m with
  | arr xs => exact absurd hid (by simp [getF, getField, truthy])
  | undefined => simp only [handleIncomingMessage]
  | null => simp only [handleIncomingMessage]
  | bool b => simp only [handleIncomingMessage]
  | num n => simp only [handleIncomingMessage]
  | str s => simp only [handleIncomingMessage]
  | obj fs => simp only [handleIncomingMessage]

/-- After deleting key `i` from a table with distinct keys, a lookup of `i`
finds nothing. -/
theorem find?_eraseNum_self (l : List (Int × Nat)) (i : Int)
    (hk : (l.map Prod.fst).Nodup) :
    (eraseNum l i).find? (fun e => e.1 == i) = none := by
  induction l with
  | nil => rfl
  | cons a as ih =>
    simp only [List.map_cons, List.nodup_cons] at hk
    by_cases ha : (a.1 == i) = true
    · have he : eraseNum (a :: as) i = as := by simp [eraseNum, ha]
      rw [he, List.find?_eq_none]
      intro x hx
      simp only [beq_iff_eq]
      intro hxi
      apply hk.1
      have hai : a.1 = i := by simpa using ha
      rw [hai, ← hxi]
      exact List.mem_map_of_mem Prod.fst hx
    · have he : eraseNum (a :: as) i = a :: eraseNum as i := by simp [eraseNum, ha]
      have hf : List.find? (fun e : Int × Nat => e.1 == i) (a :: eraseNum as i)
          = List.find? (fun e : Int × Nat => e.1 == i) (eraseNum as i) :=
        List.find?_cons_of_neg _ ha
      rw [he, hf]
      exact ih hk.2

/-- Cross-resolution impossibility for a single message: if processing `m`
settles the callback registered under id `i`, then `m`'s own id field is
exactly the number `i`. -/
theorem handleSingle_settle_id (cl : Client) (m : JsVal) (i : Int) (c : Nat)
    (hc : (cl.handlers.map Prod.snd).Nodup)
    (hm : (i, c) ∈ cl.handlers) (res : Resolution)
    (hs : Out.settle c res ∈ (handleSingle cl m).2.1) :
    getF m "id" = .num i := by
  simp only [handleSingle] at hs
  split at hs
  · simp at hs
  · split at hs
    · exfalso
      have h0 := (handleNotification_spec cl m).2.1 c
      have h1 := settleCount_pos_of_mem _ c res hs
      omega
    · split at hs
      · rcases hl : lookupHandler cl.handlers (getF m "id") with _ | e
        · rw [hl] at hs
          simp at hs
        · obtain ⟨n, hn, hfind⟩ := lookupHandler_some _ _ _ hl
          rw [hl] at hs
          simp only [List.mem_singleton] at hs
          have hce : c = e.2 := by
            cases hs
            rfl
          have hemem := List.mem_of_find?_eq_some hfind
          have heq : (i, c) = e := List.inj_on_of_nodup_map hc hm hemem hce
          have hen : e.1 = n := by simpa using List.find?_some hfind
          rw [hn]
          rw [← heq] at hen
          simp at hen
          rw [hen]
      · split at hs
        · exfalso
          have h0 := (handleServerRequest_spec cl m).2 c
          have h1 := settleCount_pos_of_mem _ c res hs
          omega
        · simp at hs

/-! ### Claims -/

/-- C5: `listTools` and `callTool` invoked while the session is not
connected fail immediately and locally with the "not connected" error: the
returned state is the unchanged client (correlation table untouched, no
request id consumed) and the output list is empty (no outbound message). -/
theorem claim5_not_connected_fails_locally (cl : Client) (name : String)
    (args : JsVal) (wp : Bool) (now : Nat) (h : cl.connected = false) :
    listTools cl = (cl, [], .error "Not connected to MCP server")
    ∧ callTool cl name args wp now = (cl, [], .error "Not connected to MCP server") := by
  unfold listTools callTool
  simp [h]

/-- Witness for C5 at a freshly constructed client. -/
theorem claim5_witness :
    (mkClient "http://localhost:8080").connected = false
    ∧ (listTools (mkClient "http://localhost:8080")
        = (mkClient "http://localhost:8080", [], .error "Not connected to MCP server")
      ∧ callTool (mkClient "http://localhost:8080") "add" (.obj []) true 1000
        = (mkClient "http://localhost:8080", [], .error "Not connected to MCP server")) :=
  ⟨rfl, claim5_not_connected_fails_locally (mkClient "http://localhost:8080")
    "add" (.obj []) true 1000 rfl⟩

/-- C7: `disconnect` is idempotent: a second `disconnect` leaves the state
of the first unchanged and emits nothing, while the first call (from a state
with an open event source) emits exactly one disconnect event. -/
theorem claim7_disconnect_idempotent (cl : Client) :
    (disconnect (disconnect cl).1).1 = (disconnect cl).1
    ∧ (disconnect (disconnect cl).1).2 = []
    ∧ (cl.eventSource = true → (disconnect cl).2 = [Out.emitEv "disconnect" .undefined]) := by
  unfold disconnect
  by_cases h : cl.eventSource <;> simp [h]

/-- Witness for C7 at a connected client. -/
theorem claim7_witness :
    (disconnect (disconnect clConn).1).1 = (disconnect clConn).1
    ∧ (disconnect (disconnect clConn).1).2 = []
    ∧ clConn.eventSource = true
    ∧ (disconnect clConn).2 = [Out.emitEv "disconnect" .undefined] :=
  ⟨(claim7_disconnect_idempotent clConn).1, (claim7_disconnect_idempotent clConn).2.1,
    rfl, (claim7_disconnect_idempotent clConn).2.2 rfl⟩

/-- C8: leaving `withProgress` unspecified defaults it to `true`, so the
request sent by `callToolDefaults` carries `_meta.progressToken`; only an
explicit `false` yields params without the `_meta` field. -/
theorem claim8_withProgress_defaults_true (cl : Client) (name : String)
    (args : JsVal) (now : Nat) (h : cl.connected = true) :
    callToolDefaultWithProgress = true
    ∧ (callToolDefaults cl name now).2.1 =
        [Out.send (.obj [("jsonrpc", .str "2.0"), ("id", .num cl.nextRequestId),
          ("method", .str "tools/call"),
          ("params", .obj [("name", .str name), ("arguments", callToolDefaultArgs),
            ("_meta", .obj [("progressToken", .str (toString now))])])])]
    ∧ (∀ req ∈ (callToolDefaults cl name now).2.1,
        ∀ v, req = Out.send v →
          getF (getF (getF v "params") "_meta") "progressToken" = .str (toString now))
    ∧ (callTool cl name args false now).2.1 =
        [Out.send (.obj [("jsonrpc", .str "2.0"), ("id", .num cl.nextRequestId),
          ("method", .str "tools/call"),
          ("params", .obj [("name", .str name), ("arguments", args)])])]
    ∧ (∀ req ∈ (callTool cl name args false now).2.1,
        ∀ v, req = Out.send v → getF (getF v "params") "_meta" = .undefined) := by
  unfold callToolDefaults callTool callToolDefaultWithProgress sendRequest
  simp [h, getF, getField, truthy, callToolDefaultArgs]

/-- Witness for C8 at a connected client. -/
theorem claim8_witness :
    clConn.connected = true
    ∧ (callToolDefaultWithProgress = true
      ∧ (callToolDefaults clConn "add" 1000).2.1 =
          [Out.send (.obj [("jsonrpc", .str "2.0"), ("id", .num clConn.nextRequestId),
            ("method", .str "tools/call"),
            ("params", .obj [("name", .str "add"), ("arguments", callToolDefaultArgs),
              ("_meta", .obj [("progressToken", .str (toString 1000))])])])]
      ∧ (∀ req ∈ (callToolDefaults clConn "add" 1000).2.1,
          ∀ v, req = Out.send v →
            getF (getF (getF v "params") "_meta") "progressToken" = .str (toString 1000))
      ∧ (callTool clConn "add" (.obj []) false 1000).2.1 =
          [Out.send (.obj [("jsonrpc", .str "2.0"), ("id", .num clConn.nextRequestId),
            ("method", .str "tools/call"),
            ("params", .obj [("name", .str "add"), ("arguments", .obj [])])])]
      ∧ (∀ req ∈ (callTool clConn "add" (.obj []) false 1000).2.1,
          ∀ v, req = Out.send v → getF (getF v "params") "_meta" = .undefined)) :=
  ⟨rfl, claim8_withProgress_defaults_true clConn "add" (.obj []) 1000 rfl⟩

/-- C9: a message carrying a `method` and a falsy id (for example id 0) is
dispatched as a Notification, not as a server-initiated Request: the state
is unchanged and no reply is sent, whatever the method (including `ping` and
`roots/list`). -/
theorem claim9_falsy_id_is_notification (cl : Client) (m : JsVal)
    (hmeth : truthy (getF m "method") = true)
    (hid : truthy (getF m "id") = false) :
    handleIncomingMessage cl m = handleNotification cl m
    ∧ (handleIncomingMessage cl m).1 = cl
    ∧ (∀ j, Out.send j ∉ (handleIncomingMessage cl m).2.1) := by
  have hs : handleIncomingMessage cl m = handleSingle cl m :=
    him_eq_single_of_truthy_method cl m hmeth
  have hn : handleSingle cl m = handleNotification cl m := by
    cases hg : getField m "method" with
    | error u =>
      exfalso
      rw [show getF m "method" = .undefined from by simp [getF, hg]] at hmeth
      exact absurd hmeth (by simp [truthy])
    | ok w =>
      have hw : getF m "method" = w := by simp [getF, hg]
      rw [hw] at hmeth
      simp only [handleSingle, hg]
      simp [hmeth, hid]
  rw [hs, hn]
  have h := handleNotification_spec cl m
  exact ⟨rfl, h.1, h.2.2⟩

/-- Witness for C9: a `ping` with id 0 produces no reply at all. -/
theorem claim9_witness :
    truthy (getF (.obj [("method", .str "ping"), ("id", .num 0)]) "method") = true
    ∧ truthy (getF (.obj [("method", .str "ping"), ("id", .num 0)]) "id") = false
    ∧ (handleIncomingMessage clConn (.obj [("method", .str "ping"), ("id", .num 0)])
        = handleNotification clConn (.obj [("method", .str "ping"), ("id", .num 0)])
      ∧ (handleIncomingMessage clConn (.obj [("method", .str "ping"), ("id", .num 0)])).1 = clConn
      ∧ (∀ j, Out.send j ∉
          (handleIncomingMessage clConn (.obj [("method", .str "ping"), ("id", .num 0)])).2.1)) :=
  ⟨rfl, rfl, claim9_falsy_id_is_notification clConn
    (.obj [("method", .str "ping"), ("id", .num 0)]) rfl rfl⟩

/-- If a property read on `m` throws, `m` is `null` or `undefined`, so every
other read on `m` yields `undefined` under `getF`. -/
theorem getF_undef_of_getField_error (m : JsVal) (k k2 : String) (u : Unit)
    (h : getField m k = .error u) : getF m k2 = .undefined := by
  cases m <;> first
    | rfl
    | simp [getField] at h

/-- Classification of a message with a truthy numeric id and a truthy
`result` or `error`: it is a Response, the matching pending entry is removed
and its callback is invoked — rejecting with the error's code and message if
`error` is truthy, resolving with the result payload otherwise. -/
theorem handleSingle_response (cl : Client) (m : JsVal) (i : Int) (c : Nat)
    (hid : getF m "id" = .num i) (hi : (i != 0) = true)
    (hre : (truthy (getF m "result") || truthy (getF m "error")) = true)
    (hnd : (cl.handlers.map Prod.fst).Nodup)
    (hm : (i, c) ∈ cl.handlers) :
    handleSingle cl m =
      ({ cl with handlers := eraseNum cl.handlers i },
       [Out.settle c (if truthy (getF m "error") then
           Resolution.rejectedError (getF (getF m "error") "code")
             (getF (getF m "error") "message")
         else Resolution.resolvedResult (getF m "result"))], true) := by
  have htid : truthy (getF m "id") = true := by
    rw [hid]
    simpa [truthy] using hi
  cases hg : getField m "method" with
  | error u =>
    exfalso
    rw [getF_undef_of_getField_error m "method" "id" u hg] at hid
    cases hid
  | ok w =>
    simp only [handleSingle, hg, htid, hre, Bool.not_true, Bool.and_false,
      Bool.and_true, if_false, if_true, Bool.false_eq_true, ite_false, ite_true]
    rw [hid]
    simp only [lookupHandler]
    rw [find?_of_mem_keysNodup cl.handlers i c hnd hm]
    simp only [eraseKey]

/-- C6: an inbound server-initiated Request with method `ping` (truthy id,
no result/error payload) is answered immediately with exactly one reply
carrying `jsonrpc` 2.0, the same id and an empty result object; the state is
unchanged and no event is surfaced to the application. -/
theorem claim6_ping_autoreply (cl : Client) (m : JsVal)
    (hmeth : getF m "method" = .str "ping")
    (hid : truthy (getF m "id") = true)
    (hres : truthy (getF m "result") = false)
    (herr : truthy (getF m "error") = false) :
    handleIncomingMessage cl m =
      (cl, [Out.send (.obj [("jsonrpc", .str "2.0"), ("id", getF m "id"),
        ("result", .obj [])])], true) := by
  rw [him_eq_single_of_truthy_id cl m hid]
  cases hg : getField m "method" with
  | error u =>
    exfalso
    rw [getF_undef_of_getField_error m "method" "method" u hg] at hmeth
    cases hmeth
  | ok w =>
    have hw : getF m "method" = w := by simp [getF, hg]
    rw [hw] at hmeth
    subst hmeth
    simp only [handleSingle, hg, hid, hres, herr, Bool.not_true, Bool.and_false,
      Bool.or_self, Bool.and_true, Bool.false_eq_true, if_false, ite_false]
    simp [handleServerRequest, hw, strEq]
    decide

/-- Witness for C6: a concrete ping request with id 7. -/
theorem claim6_witness :
    getF (.obj [("jsonrpc", .str "2.0"), ("id", .num 7), ("method", .str "ping")]) "method"
      = .str "ping"
    ∧ truthy (getF (.obj [("jsonrpc", .str "2.0"), ("id", .num 7), ("method", .str "ping")]) "id")
      = true
    ∧ handleIncomingMessage clConn
        (.obj [("jsonrpc", .str "2.0"), ("id", .num 7), ("method", .str "ping")]) =
      (clConn, [Out.send (.obj [("jsonrpc", .str "2.0"),
        ("id", getF (.obj [("jsonrpc", .str "2.0"), ("id", .num 7), ("method", .str "ping")]) "id"),
        ("result", .obj [])])], true) :=
  ⟨rfl, rfl, claim6_ping_autoreply clConn
    (.obj [("jsonrpc", .str "2.0"), ("id", .num 7), ("method", .str "ping")])
    rfl rfl rfl rfl⟩

/-- C3 counterexample: a message whose `result` is the falsy value `0` for
the pending id 1 is NOT treated as a Response — the pending callback is not
invoked, the correlation entry survives and the message is discarded — so a
`result` of `null`, `0`, `false` or `""` does not complete the pending call
as the claim states. -/
theorem claim3_counterexample :
    handleIncomingMessage clPend
        (.obj [("jsonrpc", .str "2.0"), ("id", .num 1), ("result", .num 0)]) =
      (clPend, [], true)
    ∧ Out.settle 1 (.resolvedResult (.num 0)) ∉
        (handleIncomingMessage clPend
          (.obj [("jsonrpc", .str "2.0"), ("id", .num 1), ("result", .num 0)])).2.1 := by
  constructor
  · rfl
  · rw [show handleIncomingMessage clPend
        (.obj [("jsonrpc", .str "2.0"), ("id", .num 1), ("result", .num 0)]) =
        (clPend, [], true) from rfl]
    simp

/-- C3 amended: a message with a truthy id and a truthy `result` or `error`
value is classified as a Response and resolves the matching pending call —
rejecting it with the error's numeric code and message when `error` is
truthy, completing it successfully with the result payload otherwise — and
the correlation entry is removed.  (The original claim's allowance of falsy
result values such as `null`, `0`, `false`, `""` fails: the code tests
`message.result || message.error` by truthiness.) -/
theorem claim3_amended_truthy_response (cl : Client) (m : JsVal) (i : Int) (c : Nat)
    (hid : getF m "id" = .num i) (hi : (i != 0) = true)
    (hre : (truthy (getF m "result") || truthy (getF m "error")) = true)
    (hnd : (cl.handlers.map Prod.fst).Nodup)
    (hm : (i, c) ∈ cl.handlers) :
    handleIncomingMessage cl m =
      ({ cl with handlers := eraseNum cl.handlers i },
       [Out.settle c (if truthy (getF m "error") then
           Resolution.rejectedError (getF (getF m "error") "code")
             (getF (getF m "error") "message")
         else Resolution.resolvedResult (getF m "result"))], true) := by
  have htid : truthy (getF m "id") = true := by
    rw [hid]
    simpa [truthy] using hi
  rw [him_eq_single_of_truthy_id cl m htid]
  exact handleSingle_response cl m i c hid hi hre hnd hm

/-- Witness for amended C3: a concrete error Response for pending id 1. -/
theorem claim3_witness :
    getF (.obj [("id", .num 1),
        ("error", .obj [("code", .num (-32000)), ("message", .str "boom")])]) "id" = .num 1
    ∧ ((1 : Int) != 0) = true
    ∧ ((1 : Int), 1) ∈ clPend.handlers
    ∧ handleIncomingMessage clPend
        (.obj [("id", .num 1),
          ("error", .obj [("code", .num (-32000)), ("message", .str "boom")])]) =
      ({ clPend with handlers := eraseNum clPend.handlers 1 },
       [Out.settle 1 (if truthy (getF (.obj [("id", .num 1),
             ("error", .obj [("code", .num (-32000)), ("message", .str "boom")])]) "error") then
           Resolution.rejectedError
             (getF (getF (.obj [("id", .num 1),
               ("error", .obj [("code", .num (-32000)), ("message", .str "boom")])]) "error") "code")
             (getF (getF (.obj [("id", .num 1),
               ("error", .obj [("code", .num (-32000)), ("message", .str "boom")])]) "error") "message")
         else Resolution.resolvedResult (getF (.obj [("id", .num 1),
           ("error", .obj [("code", .num (-32000)), ("message", .str "boom")])]) "result"))],
       true) :=
  ⟨rfl, rfl, by simp [clPend, clConn, mkClient],
    claim3_amended_truthy_response clPend
      (.obj [("id", .num 1),
        ("error", .obj [("code", .num (-32000)), ("message", .str "boom")])]) 1 1
      rfl rfl rfl (by simp [clPend, clConn, mkClient]) (by simp [clPend, clConn, mkClient])⟩

/-- Batch processing of an empty list. -/
theorem handleBatch_nil (cl : Client) : handleBatch cl [] = (cl, [], true) := by
  simp only [handleBatch]

/-- Batch step when the first element is handled without a throw: its
outputs are prepended and processing continues on the rest from the updated
state. -/
theorem handleBatch_cons_ok (cl : Client) (x : JsVal) (xs : List JsVal)
    (st : Client) (outs : List Out)
    (h : handleIncomingMessage cl x = (st, outs, true)) :
    handleBatch cl (x :: xs) =
      ((handleBatch st xs).1, outs ++ (handleBatch st xs).2.1, (handleBatch st xs).2.2) := by
  simp only [handleBatch, h]
  simp

/-- C2 counterexample: in the batch
`[Response(id 1), null, progress notification]` the malformed element `null`
throws a `TypeError` (reading `message.method` of `null`), which aborts the
`forEach`, so the progress notification is never dispatched: processing
stops after resolving id 1 and no `progress` event is emitted — the claim
that a malformed element never prevents processing of later elements fails. -/
theorem claim2_counterexample :
    handleIncomingMessage clPend (.arr [respOk, .null, progressNote]) =
      ({ clPend with handlers := [] },
       [Out.settle 1 (.resolvedResult (.str "ok"))], false)
    ∧ Out.emitEv "progress" (.obj [("token", .str "tok"), ("progress", .num 1),
        ("total", .num 2), ("message", .undefined)]) ∉
        (handleIncomingMessage clPend (.arr [respOk, .null, progressNote])).2.1 := by
  constructor
  · rfl
  · rw [show handleIncomingMessage clPend (.arr [respOk, .null, progressNote]) =
        ({ clPend with handlers := [] },
         [Out.settle 1 (.resolvedResult (.str "ok"))], false) from rfl]
    simp

/-- C2 amended (the claim restricted to non-null malformed elements): batch
elements are processed in array order, and a malformed element that is an
object matching no envelope shape (falsy `method` and falsy `id`) is
discarded without preventing later elements; in particular the batch
`[Response(id i), malformed object, progress notification]` resolves id
`i`'s callback, discards the malformed object, and still dispatches the
progress notification.  (A `null` element instead throws a `TypeError` that
aborts the remainder of the batch, as the counterexample shows.) -/
theorem claim2_amended_batch_order (cl : Client) (i : Int) (c : Nat) (res : JsVal)
    (jfs : List (String × JsVal)) (p : List (String × JsVal))
    (hnd : (cl.handlers.map Prod.fst).Nodup)
    (hm : (i, c) ∈ cl.handlers) (hi : (i != 0) = true)
    (hres : truthy res = true)
    (hjm : truthy (getF (.obj jfs) "method") = false)
    (hjid : truthy (getF (.obj jfs) "id") = false) :
    handleIncomingMessage cl
        (.arr [.obj [("jsonrpc", .str "2.0"), ("id", .num i), ("result", res)],
               .obj jfs,
               .obj [("method", .str "notifications/progress"), ("params", .obj p)]]) =
      ({ cl with handlers := eraseNum cl.handlers i },
       [Out.settle c (.resolvedResult res),
        Out.emitEv "progress" (.obj [("token", getF (.obj p) "progressToken"),
          ("progress", getF (.obj p) "progress"), ("total", getF (.obj p) "total"),
          ("message", getF (.obj p) "message")])], true) := by
  have h1 : handleIncomingMessage cl
      (.obj [("jsonrpc", .str "2.0"), ("id", .num i), ("result", res)]) =
      ({ cl with handlers := eraseNum cl.handlers i },
       [Out.settle c (.resolvedResult res)], true) := by
    have htid : truthy (getF (JsVal.obj [("jsonrpc", .str "2.0"), ("id", .num i),
        ("result", res)]) "id") = true := by
      rw [show getF (JsVal.obj [("jsonrpc", .str "2.0"), ("id", .num i),
        ("result", res)]) "id" = .num i from rfl]
      simpa [truthy] using hi
    rw [him_eq_single_of_truthy_id _ _ htid]
    rw [handleSingle_response cl
      (JsVal.obj [("jsonrpc", .str "2.0"), ("id", .num i), ("result", res)]) i c rfl hi
      (by rw [show getF (JsVal.obj [("jsonrpc", .str "2.0"), ("id", .num i),
        ("result", res)]) "result" = res from rfl]; simp [hres]) hnd hm]
    rfl
  have h2 : handleIncomingMessage ({ cl with handlers := eraseNum cl.handlers i })
      (.obj jfs) = ({ cl with handlers := eraseNum cl.handlers i }, [], true) := by
    have e1 : getField (JsVal.obj jfs) "method" = .ok (getF (JsVal.obj jfs) "method") := rfl
    simp only [handleIncomingMessage, handleSingle, e1]
    simp [hjm, hjid]
  have h3 : handleIncomingMessage ({ cl with handlers := eraseNum cl.handlers i })
      (.obj [("method", .str "notifications/progress"), ("params", .obj p)]) =
      ({ cl with handlers := eraseNum cl.handlers i },
       [Out.emitEv "progress" (.obj [("token", getF (.obj p) "progressToken"),
         ("progress", getF (.obj p) "progress"), ("total", getF (.obj p) "total"),
         ("message", getF (.obj p) "message")])], true) := by
    simp only [handleIncomingMessage, handleSingle]
    rw [show getField (JsVal.obj [("method", .str "notifications/progress"),
      ("params", .obj p)]) "method" = .ok (.str "notifications/progress") from rfl]
    simp only [handleNotification]
    rw [show getField (getF (JsVal.obj [("method", .str "notifications/progress"),
      ("params", .obj p)]) "params") "progress" = .ok (getF (.obj p) "progress") from rfl]
    simp [truthy, getF, getField, strEq]
  rw [show handleIncomingMessage cl
      (.arr [.obj [("jsonrpc", .str "2.0"), ("id", .num i), ("result", res)],
             .obj jfs,
             .obj [("method", .str "notifications/progress"), ("params", .obj p)]]) =
      handleBatch cl
        [.obj [("jsonrpc", .str "2.0"), ("id", .num i), ("result", res)],
         .obj jfs,
         .obj [("method", .str "notifications/progress"), ("params", .obj p)]] from
    by simp only [handleIncomingMessage]]
  rw [handleBatch_cons_ok _ _ _ _ _ h1, handleBatch_cons_ok _ _ _ _ _ h2,
      handleBatch_cons_ok _ _ _ _ _ h3, handleBatch_nil]
  simp

/-- Witness for amended C2 at a concrete batch. -/
theorem claim2_witness :
    (clPend.handlers.map Prod.fst).Nodup
    ∧ ((1 : Int), 1) ∈ clPend.handlers
    ∧ truthy (getF (.obj [("foo", .num 7)]) "method") = false
    ∧ handleIncomingMessage clPend
        (.arr [.obj [("jsonrpc", .str "2.0"), ("id", .num 1), ("result", .str "ok")],
               .obj [("foo", .num 7)],
               .obj [("method", .str "notifications/progress"),
                 ("params", .obj [("progressToken", .str "tok"), ("progress", .num 1),
                   ("total", .num 2)])]]) =
      ({ clPend with handlers := eraseNum clPend.handlers 1 },
       [Out.settle 1 (.resolvedResult (.str "ok")),
        Out.emitEv "progress"
          (.obj [("token", getF (.obj [("progressToken", .str "tok"), ("progress", .num 1),
              ("total", .num 2)]) "progressToken"),
            ("progress", getF (.obj [("progressToken", .str "tok"), ("progress", .num 1),
              ("total", .num 2)]) "progress"),
            ("total", getF (.obj [("progressToken", .str "tok"), ("progress", .num 1),
              ("total", .num 2)]) "total"),
            ("message", getF (.obj [("progressToken", .str "tok"), ("progress", .num 1),
              ("total", .num 2)]) "message")])], true) :=
  ⟨by simp [clPend, clConn, mkClient], by simp [clPend, clConn, mkClient], rfl,
    claim2_amended_batch_order clPend 1 1 (.str "ok") [("foo", .num 7)]
      [("progressToken", .str "tok"), ("progress", .num 1), ("total", .num 2)]
      (by simp [clPend, clConn, mkClient]) (by simp [clPend, clConn, mkClient])
      rfl rfl rfl rfl⟩

/-- C4 counterexample: two `callTool(..., withProgress)` calls issued in the
same millisecond (`Date.now()` returning 1000 both times) carry the SAME
progress token `"1000"` — the tokens are not distinct as the claim states —
although the two request ids 1 and 2 are distinct. -/
theorem claim4_counterexample :
    firstProgressToken (callTool clConn "add" (.obj []) true 1000).2.1 = .str "1000"
    ∧ firstProgressToken
        (callTool (callTool clConn "add" (.obj []) true 1000).1 "add" (.obj []) true 1000).2.1
      = .str "1000"
    ∧ firstProgressToken (callTool clConn "add" (.obj []) true 1000).2.1
      = firstProgressToken
          (callTool (callTool clConn "add" (.obj []) true 1000).1 "add" (.obj []) true 1000).2.1
    ∧ firstReqId (callTool clConn "add" (.obj []) true 1000).2.1 = .num 1
    ∧ firstReqId
        (callTool (callTool clConn "add" (.obj []) true 1000).1 "add" (.obj []) true 1000).2.1
      = .num 2 := by
  refine ⟨rfl, rfl, rfl, rfl, rfl⟩

/-- C4 amended: with `withProgress` requested the outbound `tools/call`
request does carry `_meta.progressToken`, but the token is the decimal
string of `Date.now()`, so two calls within the same millisecond carry EQUAL
tokens; the two request ids, drawn from the monotonic counter, are distinct
consecutive numbers and collide with no already-pending entry (whose keys
all precede the counter). -/
theorem claim4_amended_token_from_clock (cl : Client) (n1 n2 : String)
    (a1 a2 : JsVal) (now : Nat) (hconn : cl.connected = true)
    (hfresh : ∀ k ∈ cl.handlers.map Prod.fst, k < (cl.nextRequestId : Int)) :
    firstProgressToken (callTool cl n1 a1 true now).2.1 = .str (toString now)
    ∧ firstProgressToken
        (callTool (callTool cl n1 a1 true now).1 n2 a2 true now).2.1 = .str (toString now)
    ∧ firstReqId (callTool cl n1 a1 true now).2.1 = .num cl.nextRequestId
    ∧ firstReqId (callTool (callTool cl n1 a1 true now).1 n2 a2 true now).2.1
        = .num (cl.nextRequestId + 1)
    ∧ (cl.nextRequestId : Int) ≠ ((cl.nextRequestId : Int) + 1)
    ∧ (cl.nextRequestId : Int) ∉ cl.handlers.map Prod.fst
    ∧ ((cl.nextRequestId : Int) + 1) ∉ (callTool cl n1 a1 true now).1.handlers.map Prod.fst := by
  unfold callTool sendRequest
  simp only [hconn, Bool.not_true, Bool.false_eq_true, if_false, ite_false]
  refine ⟨rfl, rfl, rfl, rfl, by omega, ?_, ?_⟩
  · intro hmem
    have := hfresh _ hmem
    omega
  · simp only [List.map_append]
    intro hmem
    rcases List.mem_append.mp hmem with h | h
    · have := hfresh _ h
      omega
    · simp only [List.map_cons, List.map_nil, List.mem_singleton] at h
      omega

/-- Witness for amended C4 at a freshly connected client. -/
theorem claim4_witness :
    clConn.connected = true
    ∧ (∀ k ∈ clConn.handlers.map Prod.fst, k < (clConn.nextRequestId : Int))
    ∧ (firstProgressToken (callTool clConn "add" (.obj []) true 1000).2.1
        = .str (toString 1000)
      ∧ firstProgressToken
          (callTool (callTool clConn "add" (.obj []) true 1000).1 "add" (.obj []) true 1000).2.1
        = .str (toString 1000)
      ∧ firstReqId (callTool clConn "add" (.obj []) true 1000).2.1 = .num clConn.nextRequestId
      ∧ firstReqId
          (callTool (callTool clConn "add" (.obj []) true 1000).1 "add" (.obj []) true 1000).2.1
        = .num (clConn.nextRequestId + 1)
      ∧ (clConn.nextRequestId : Int) ≠ ((clConn.nextRequestId : Int) + 1)
      ∧ (clConn.nextRequestId : Int) ∉ clConn.handlers.map Prod.fst
      ∧ ((clConn.nextRequestId : Int) + 1)
          ∉ (callTool clConn "add" (.obj []) true 1000).1.handlers.map Prod.fst) :=
  ⟨rfl, by simp [clConn, mkClient],
    claim4_amended_token_from_clock clConn "add" "add" (.obj []) (.obj []) 1000 rfl
      (by simp [clConn, mkClient])⟩

/-- C10: failure of the outbound HTTP send of pending request `i` removes
exactly that correlation entry and rejects that promise with the send error:
the only settlement is `sendFailed` (the completion callback is never
invoked with a response), the entry is gone, the timeout can no longer fire
(it was cleared together with the entry), and no later response or timeout
can ever settle this request again. -/
theorem claim10_send_failure_cleanup (cl : Client) (i : Int) (c : Nat)
    (hk : (cl.handlers.map Prod.fst).Nodup)
    (hc : (cl.handlers.map Prod.snd).Nodup)
    (hm : (i, c) ∈ cl.handlers) :
    (step cl (.sendFail i)).2 = [Out.settle c .sendFailed]
    ∧ (step cl (.sendFail i)).1.handlers = eraseNum cl.handlers i
    ∧ countCb (step cl (.sendFail i)).1.handlers c = 0
    ∧ step (step cl (.sendFail i)).1 (.timerFire i) = ((step cl (.sendFail i)).1, [])
    ∧ (∀ evs, settleCount (runEvents (step cl (.sendFail i)).1 evs).2 c = 0) := by
  have hf : cl.handlers.find? (fun e => e.1 == i) = some (i, c) :=
    find?_of_mem_keysNodup cl.handlers i c hk hm
  have hstep : step cl (.sendFail i) =
      ({ cl with handlers := eraseNum cl.handlers i }, [Out.settle c .sendFailed]) := by
    simp only [step, hf]
  have hcnt : countCb cl.handlers c = 1 :=
    le_antisymm (countCb_le_one_of_nodup cl.handlers c hc)
      (countCb_pos_of_mem cl.handlers i c hm)
  have hzero : countCb (eraseNum cl.handlers i) c = 0 := by
    have hco := eraseNum_countCb cl.handlers i (i, c) c hf
    simp at hco
    omega
  refine ⟨by rw [hstep], by rw [hstep], by rw [hstep]; exact hzero, ?_, ?_⟩
  · rw [hstep]
    simp only [step, find?_eraseNum_self cl.handlers i hk]
  · intro evs
    have hrun := (runEvents_spec ({ cl with handlers := eraseNum cl.handlers i }) evs c).1
    rw [hstep]
    have hzs : countCb ({ cl with handlers := eraseNum cl.handlers i } : Client).handlers c
        = 0 := hzero
    try dsimp only
    omega

/-- Witness for C10 at a client with two pending requests. -/
theorem claim10_witness :
    (clPend2.handlers.map Prod.fst).Nodup
    ∧ (clPend2.handlers.map Prod.snd).Nodup
    ∧ ((1 : Int), 1) ∈ clPend2.handlers
    ∧ ((step clPend2 (.sendFail 1)).2 = [Out.settle 1 .sendFailed]
      ∧ (step clPend2 (.sendFail 1)).1.handlers = eraseNum clPend2.handlers 1
      ∧ countCb (step clPend2 (.sendFail 1)).1.handlers 1 = 0
      ∧ step (step clPend2 (.sendFail 1)).1 (.timerFire 1) = ((step clPend2 (.sendFail 1)).1, [])
      ∧ (∀ evs, settleCount (runEvents (step clPend2 (.sendFail 1)).1 evs).2 1 = 0)) :=
  ⟨by simp [clPend2, clConn, mkClient], by simp [clPend2, clConn, mkClient],
    by simp [clPend2, clConn, mkClient],
    claim10_send_failure_cleanup clPend2 1 1
      (by simp [clPend2, clConn, mkClient]) (by simp [clPend2, clConn, mkClient])
      (by simp [clPend2, clConn, mkClient])⟩

/-- C1: exactly-once resolution.  For a registered entry `(i, c)` of the
correlation table (distinct keys and callbacks), over any sequence of
asynchronous events: (1) the callback settles at most once; (2) once it has
settled, its entry is no longer in the table; (3) while it has not settled,
its entry is still present and a firing of its timeout resolves it — so
exactly one of response-resolution and timeout occurs in any completed run —
and (4) a single inbound message can settle `c` only if its own id field is
exactly `i`, so a Response for one id never resolves another request's
callback. -/
theorem claim1_exactly_one_resolution (cl : Client) (evs : List Ev) (i : Int) (c : Nat)
    (hk : (cl.handlers.map Prod.fst).Nodup)
    (hc : (cl.handlers.map Prod.snd).Nodup)
    (hm : (i, c) ∈ cl.handlers) :
    settleCount (runEvents cl evs).2 c ≤ 1
    ∧ (1 ≤ settleCount (runEvents cl evs).2 c → (i, c) ∉ (runEvents cl evs).1.handlers)
    ∧ (settleCount (runEvents cl evs).2 c = 0 →
        (i, c) ∈ (runEvents cl evs).1.handlers
        ∧ settleCount (runEvents cl (evs ++ [Ev.timerFire i])).2 c = 1)
    ∧ (∀ m res2, Out.settle c res2 ∈ (handleSingle cl m).2.1 → getF m "id" = .num i) := by
  have hcons := runEvents_spec cl evs c
  have hconsEq := hcons.1
  have hcnt : countCb cl.handlers c = 1 :=
    le_antisymm (countCb_le_one_of_nodup cl.handlers c hc)
      (countCb_pos_of_mem cl.handlers i c hm)
  refine ⟨by omega, ?_, ?_, ?_⟩
  · intro h1
    have h0 : countCb (runEvents cl evs).1.handlers c = 0 := by omega
    exact not_mem_of_countCb_zero _ i c h0
  · intro h0
    have h1 : countCb (runEvents cl evs).1.handlers c = 1 := by omega
    obtain ⟨e, he, hec⟩ :=
      exists_cb_of_countCb_pos (runEvents cl evs).1.handlers c (by omega)
    have hecl : e ∈ cl.handlers := hcons.2.subset he
    have heq : e = (i, c) := List.inj_on_of_nodup_map hc hecl hm (by rw [hec])
    have hmem2 : (i, c) ∈ (runEvents cl evs).1.handlers := by rwa [heq] at he
    refine ⟨hmem2, ?_⟩
    have happ := runEvents_append cl evs [Ev.timerFire i]
    rw [happ.2, settleCount_append, h0]
    have hknd : ((runEvents cl evs).1.handlers.map Prod.fst).Nodup :=
      List.Nodup.sublist (List.Sublist.map Prod.fst hcons.2) hk
    have hf := find?_of_mem_keysNodup _ i c hknd hmem2
    simp only [runEvents, step, hf]
    simp [settleCount, List.countP_cons]
  · intro m res2 hs
    exact handleSingle_settle_id cl m i c hc hm res2 hs

/-- Witness for C1: a client with two pending requests receiving the
response for id 1. -/
theorem claim1_witness :
    (clPend2.handlers.map Prod.fst).Nodup
    ∧ (clPend2.handlers.map Prod.snd).Nodup
    ∧ ((1 : Int), 1) ∈ clPend2.handlers
    ∧ (settleCount (runEvents clPend2 [Ev.inbound respOk]).2 1 ≤ 1
      ∧ (1 ≤ settleCount (runEvents clPend2 [Ev.inbound respOk]).2 1 →
          ((1 : Int), 1) ∉ (runEvents clPend2 [Ev.inbound respOk]).1.handlers)
      ∧ (settleCount (runEvents clPend2 [Ev.inbound respOk]).2 1 = 0 →
          ((1 : Int), 1) ∈ (runEvents clPend2 [Ev.inbound respOk]).1.handlers
          ∧ settleCount (runEvents clPend2 ([Ev.inbound respOk] ++ [Ev.timerFire 1])).2 1 = 1)
      ∧ (∀ m res2, Out.settle 1 res2 ∈ (handleSingle clPend2 m).2.1 → getF m "id" = .num 1)) :=
  ⟨by simp [clPend2, clConn, mkClient], by simp [clPend2, clConn, mkClient],
    by simp [clPend2, clConn, mkClient],
    claim1_exactly_one_resolution clPend2 [Ev.inbound respOk] 1 1
      (by simp [clPend2, clConn, mkClient]) (by simp [clPend2, clConn, mkClient])
      (by simp [clPend2, clConn, mkClient])⟩
